import Mathlib

/-!
Verification of the profile store, availability evaluator and match finder of
the hourglass bot (`state.py`).

The Python module keeps the whole bot state as a JSON-shaped dictionary
`{"users": {"<user id>": {"games": [...], "timezone": ..., "availability": ...}}}`
and exposes pure-ish operations over it.  We embed that state shallowly:

* Python dictionaries with string keys become association lists
  (`List (String × _)`) with first-match lookup and replace-in-place update,
  which is exactly the observable behaviour of a `dict`;
* machine strings are Lean `String`s; Python's lexicographic string
  comparison (by code point) is embedded as a structural recursion over the
  character lists (`lex_lt` / `lex_le`), since Python compares strings
  exactly that way;
* fallible code paths (a `KeyError` on a malformed record, `int(...)` on a
  non-numeric key) are modelled with `Option`;
* the `zoneinfo` / `datetime` library boundary (timezone resolution and
  conversion of an absolute instant to a local weekday and a local `HH:MM`
  string) is modelled by an explicit environment (`TZEnv`), quantified over
  in the theorems; an instant is minutes since the Unix epoch.
-/

namespace HourglassBot

/-! ## Python dictionary model -/

/-- Update of a Python `dict` keyed by strings: `d[k] = v` replaces the value
at the first (only) occurrence of `k` in place, keeping its position, and
appends a new entry otherwise. -/
def dictSet {V : Type} : List (String × V) → String → V → List (String × V)
  | [], k, v => [(k, v)]
  | (k', v') :: rest, k, v =>
      if k' = k then (k, v) :: rest else (k', v') :: dictSet rest k v

/-! ## Python string comparison

Python compares strings lexicographically by code point.  `lex_lt` and
`lex_le` are that comparison on the underlying character lists, written as
plain structural recursions so that they compute by kernel reduction. -/

/-- Strict lexicographic comparison of character lists (Python `s < t`). -/
def lex_lt : List Char → List Char → Bool
  | [], [] => false
  | [], _ :: _ => true
  | _ :: _, [] => false
  | a :: as, b :: bs => if a < b then true else if b < a then false else lex_lt as bs

/-- Non-strict lexicographic comparison of character lists (Python `s <= t`). -/
def lex_le : List Char → List Char → Bool
  | [], _ => true
  | _ :: _, [] => false
  | a :: as, b :: bs => if a < b then true else if b < a then false else lex_le as bs

/-- Python `s < t` on strings. -/
def py_str_lt (s t : String) : Bool := lex_lt s.data t.data

/-- Python `s <= t` on strings. -/
def py_str_le (s t : String) : Bool := lex_le s.data t.data

/-- Python `int(s)` restricted to the canonical `str(int)` forms (an optional
minus sign followed by digits); every other input is a parse failure
(`ValueError`), modelled as `none`. -/
def parse_digits : Nat → List Char → Option Nat
  | acc, [] => some acc
  | acc, c :: cs =>
      if c.isDigit then parse_digits (acc * 10 + (c.toNat - 48)) cs else none

/-- Python `int(s)` for stringified user identifiers. -/
def str_to_int (s : String) : Option Int :=
  match s.data with
  | [] => none
  | '-' :: rest =>
      match rest with
      | [] => none
      | _ :: _ => (parse_digits 0 rest).map (fun n => -(n : Int))
  | cs => (parse_digits 0 cs).map (fun n => (n : Int))

/-! ## Data model (`state.py`) -/

/-- A single availability slot `{"start": ..., "end": ...}` (the `end` key is
rendered as `stop` because `end` is a Lean keyword). -/
structure Interval where
  start : String
  stop : String
deriving DecidableEq

/-- The JSON value stored under a user's `"timezone"` key: a string, or any
non-string value (which `get_timezone_from_state` rejects). -/
inductive TZVal where
  | str (s : String)
  | nonstr
deriving DecidableEq

/-- The JSON value stored under a user's `"availability"` key: a dictionary
from weekday key to slot list, or any non-dictionary value (which the
accessors replace by the empty default). -/
inductive AvailVal where
  | dict (days : List (String × List Interval))
  | nondict
deriving DecidableEq

/-- A user record: the `"games"`, `"timezone"` and `"availability"` keys of
the per-user dictionary, each possibly absent. -/
structure PyUser where
  games : Option (List String)
  timezone : Option TZVal
  availability : Option AvailVal
deriving DecidableEq

/-- The whole bot state `{"users": {...}}`. -/
structure BotState where
  users : List (String × PyUser)
deriving DecidableEq

/-- `DAY_KEYS` from `state.py`. -/
def DAY_KEYS : List String := ["mon", "tue", "wed", "thu", "fri", "sat", "sun"]

/-- `_empty_availability()`: `{day: [] for day in DAY_KEYS}`. -/
def empty_availability : List (String × List Interval) :=
  DAY_KEYS.map (fun day => (day, []))

/-- `normalize_game_name`: `"".join(name.split()).lower()` — remove all
whitespace, then lowercase. -/
def normalize_game_name (name : String) : String :=
  ⟨(name.data.filter (fun c => !c.isWhitespace)).map Char.toLower⟩

/-! ## Game operations -/

/-- The `for idx, existing in enumerate(games): ... else: append` loop of
`add_game_to_state`: replace the first entry with the same normalized name in
place, or append. -/
def add_game_update (games : List String) (game_name : String) : List String :=
  match games with
  | [] => [game_name]
  | existing :: rest =>
      if normalize_game_name existing == normalize_game_name game_name
      then game_name :: rest
      else existing :: add_game_update rest game_name

/-- `add_game_to_state`.  Reading `users[user_key]["games"]` raises a
`KeyError` when an existing user record lacks the `"games"` key; that raise is
modelled as `none`. -/
def add_game_to_state (state : BotState) (user_id : Int) (game_name : String) :
    Option BotState :=
  let user_key := toString user_id
  let users := state.users
  let users :=
    if (List.lookup user_key users).isSome then users
    else dictSet users user_key { games := some [], timezone := none, availability := none }
  match List.lookup user_key users with
  | some user =>
      match user.games with
      | some games =>
          some { users := dictSet users user_key
                  { user with games := some (add_game_update games game_name) } }
      | none => none
  | none => none

/-- `remove_game_from_state`: remove the first game whose normalized form
matches and report whether anything was removed.  The Python function mutates
the list via `games.remove(game)` (removal of the first literally-equal
element, here `List.erase`) and returns a boolean; we return the pair. -/
def remove_game_from_state (state : BotState) (user_id : Int) (game_name : String) :
    Bool × BotState :=
  let user_key := toString user_id
  match List.lookup user_key state.users with
  | none => (false, state)
  | some user =>
      match user.games with
      | none => (false, state)
      | some games =>
          if games.isEmpty then (false, state)
          else
            let normalized_query := normalize_game_name game_name
            match games.find? (fun game => normalize_game_name game == normalized_query) with
            | some game =>
                (true, { users := dictSet state.users user_key
                          { user with games := some (games.erase game) } })
            | none => (false, state)

/-- `list_games_from_state`: the user's games, or `[]` for an unknown user or
a record without a `"games"` key (the Python `list(...)` copy is the identity
in a pure model). -/
def list_games_from_state (state : BotState) (user_id : Int) : List String :=
  match List.lookup (toString user_id) state.users with
  | none => []
  | some user =>
      match user.games with
      | none => []
      | some games => games

/-- `get_common_games`: the invoker's games whose normalized form also occurs
among the other user's normalized games, in the invoker's order and spelling
(the Python set `normalized_b` is a membership structure; list membership is
its pure counterpart). -/
def get_common_games (state : BotState) (user_id_a user_id_b : Int) : List String :=
  let games_a := list_games_from_state state user_id_a
  let games_b := list_games_from_state state user_id_b
  let normalized_b := games_b.map normalize_game_name
  games_a.filter (fun name_a => normalized_b.contains (normalize_game_name name_a))

/-! ## Timezone operations -/

/-- `set_timezone_in_state`. -/
def set_timezone_in_state (state : BotState) (user_id : Int) (tz : String) : BotState :=
  let user_key := toString user_id
  match List.lookup user_key state.users with
  | none =>
      { users := dictSet state.users user_key
          { games := some [], timezone := some (.str tz), availability := none } }
  | some user =>
      let user := if user.games.isSome then user else { user with games := some [] }
      { users := dictSet state.users user_key { user with timezone := some (.str tz) } }

/-- `get_timezone_from_state`: the stored timezone if it is a non-empty
string, otherwise `none`. -/
def get_timezone_from_state (state : BotState) (user_id : Int) : Option String :=
  match List.lookup (toString user_id) state.users with
  | none => none
  | some user =>
      match user.timezone with
      | some (.str s) => if s == "" then none else some s
      | _ => none

/-! ## Availability operations -/

/-- Python falsiness of an optional string argument (`None` or `""`). -/
def falsy_str : Option String → Bool
  | none => true
  | some s => s == ""

/-- The `for d in DAY_KEYS: if d not in availability: availability[d] = []`
loop of `set_day_availability_in_state`. -/
def fill_missing_days (av : List (String × List Interval)) : List (String × List Interval) :=
  DAY_KEYS.foldl (fun av d => if (List.lookup d av).isSome then av else dictSet av d []) av

/-- `set_day_availability_in_state`. -/
def set_day_availability_in_state (state : BotState) (user_id : Int) (day : String)
    (start stop : Option String) : BotState :=
  let user_key := toString user_id
  let users :=
    if (List.lookup user_key state.users).isSome then state.users
    else dictSet state.users user_key
      { games := some [], timezone := none, availability := some (.dict empty_availability) }
  match List.lookup user_key users with
  | none => { users := users }
  | some user =>
      let availability :=
        match user.availability with
        | some (.dict d) => d
        | _ => empty_availability
      let availability := fill_missing_days availability
      let availability :=
        if falsy_str start || falsy_str stop then dictSet availability day []
        else dictSet availability day [{ start := start.getD "", stop := stop.getD "" }]
      { users := dictSet users user_key { user with availability := some (.dict availability) } }

/-- `get_availability_from_state`: the stored availability normalized to a
copy with exactly the seven weekday keys, in `DAY_KEYS` order, each day
defaulting to `[]`; an unknown user or a non-dictionary stored value yields
the all-empty default. -/
def get_availability_from_state (state : BotState) (user_id : Int) :
    List (String × List Interval) :=
  match List.lookup (toString user_id) state.users with
  | none => empty_availability
  | some user =>
      match user.availability with
      | some (.dict availability) =>
          DAY_KEYS.map (fun day => (day, (List.lookup day availability).getD []))
      | _ => empty_availability

/-! ## Availability evaluation -/

/-- Model of a resolved `zoneinfo.ZoneInfo` object: what
`now_utc.astimezone(tz)` lets `is_user_available_now` observe, namely the
local weekday (`datetime.weekday()`, 0 = Monday) and the local time-of-day
string (`strftime("%H:%M")`).  An instant is minutes since the Unix epoch. -/
structure TZInfo where
  localWeekday : Nat → Fin 7
  localHHMM : Nat → String

/-- Model of the `zoneinfo` database: `ZoneInfo(name)` either resolves a name
to a timezone or raises (`none`). -/
structure TZEnv where
  resolve : String → Option TZInfo

/-- `DAY_KEYS[local_now.weekday()]`. -/
def day_key_of (i : Fin 7) : String := DAY_KEYS.get (Fin.cast rfl i)

/-- The slot containment test `slot["start"] <= local_time_str < slot["end"]`
of `is_user_available_now` (Python chained string comparison). -/
def slot_matches (slot : Interval) (local_time_str : String) : Bool :=
  py_str_le slot.start local_time_str && py_str_lt local_time_str slot.stop

/-- `is_user_available_now`. -/
def is_user_available_now (env : TZEnv) (state : BotState) (user_id : Int)
    (now_utc : Nat) : Bool :=
  match get_timezone_from_state state user_id with
  | none => false
  | some tz_name =>
      match env.resolve tz_name with
      | none => false
      | some tz =>
          let day_key := day_key_of (tz.localWeekday now_utc)
          let availability := get_availability_from_state state user_id
          let slots := (List.lookup day_key availability).getD []
          let local_time_str := tz.localHHMM now_utc
          slots.any (fun slot => slot_matches slot local_time_str)

/-! ## Match finding -/

/-- Stable insertion of a result pair in front of the first strictly larger
user identifier; `sort_by_user_id` below is then a stable sort by `user_id`,
which is extensionally the Python `results.sort(key=lambda x: x[0])`. -/
def insert_by_user_id (x : Int × List String) :
    List (Int × List String) → List (Int × List String)
  | [] => [x]
  | y :: ys => if x.1 ≤ y.1 then x :: y :: ys else y :: insert_by_user_id x ys

/-- `results.sort(key=lambda x: x[0])`: stable sort ascending by user id. -/
def sort_by_user_id : List (Int × List String) → List (Int × List String)
  | [] => []
  | x :: xs => insert_by_user_id x (sort_by_user_id xs)

/-- The `for user_key in state["users"]` loop body of `find_ready_players`,
collecting unsorted `(user_id, common_games)` pairs; `int(user_key)` on a
non-numeric key raises, modelled as `none`. -/
def ready_candidates (env : TZEnv) (state : BotState) (invoker_id : Int) (now_utc : Nat)
    (game_filter : Option String) : List (String × PyUser) → Option (List (Int × List String))
  | [] => some []
  | (user_key, _) :: rest =>
      match str_to_int user_key with
      | none => none
      | some other_id =>
          match ready_candidates env state invoker_id now_utc game_filter rest with
          | none => none
          | some tail =>
              if other_id = invoker_id then some tail
              else if !is_user_available_now env state other_id now_utc then some tail
              else
                let common := get_common_games state invoker_id other_id
                if common.isEmpty then some tail
                else
                  match game_filter with
                  | some gf =>
                      if gf == "" then some ((other_id, common) :: tail)
                      else
                        let common := common.filter
                          (fun g => normalize_game_name g == normalize_game_name gf)
                        if common.isEmpty then some tail
                        else some ((other_id, common) :: tail)
                  | none => some ((other_id, common) :: tail)

/-- `find_ready_players`. -/
def find_ready_players (env : TZEnv) (state : BotState) (invoker_id : Int) (now_utc : Nat)
    (game_filter : Option String) : Option (List (Int × List String)) :=
  match ready_candidates env state invoker_id now_utc game_filter state.users with
  | none => none
  | some results => some (sort_by_user_id results)

/-! ## Witness fixtures: a concrete timezone environment (UTC) -/

/-- Zero-padded two-digit rendering of a number below 100. -/
def pad2 (n : Nat) : String := if n < 10 then "0" ++ toString n else toString n

/-- `HH:MM` rendering of a minute-of-day offset. -/
def minutesToHHMM (m : Nat) : String := pad2 (m / 60) ++ ":" ++ pad2 (m % 60)

/-- The UTC timezone over instants counted in minutes since the Unix epoch
(Thursday 1970-01-01, so weekday index 3 in the Monday-based numbering). -/
def utcInfo : TZInfo where
  localWeekday := fun m => ⟨(m / 1440 + 3) % 7, Nat.mod_lt _ (by decide)⟩
  localHHMM := fun m => minutesToHHMM (m % 1440)

/-- A timezone database resolving exactly the name `"UTC"`. -/
def utcEnv : TZEnv where
  resolve := fun name => if name == "UTC" then some utcInfo else none

/-! ## Dictionary lemmas -/

theorem string_beq_false {a b : String} (h : a ≠ b) : (a == b) = false :=
  beq_eq_false_iff_ne.mpr h

theorem lookup_dictSet_self {V : Type} (l : List (String × V)) (k : String) (v : V) :
    List.lookup k (dictSet l k v) = some v := by
  induction l with
  | nil => simp [dictSet, List.lookup]
  | cons hd tl ih =>
      obtain ⟨k', v'⟩ := hd
      by_cases h : k' = k
      · subst h; simp [dictSet, List.lookup]
      · simp [dictSet, h, List.lookup, ih, string_beq_false (Ne.symm h)]

theorem lookup_dictSet_ne {V : Type} (l : List (String × V)) (k k' : String) (v : V)
    (h : k' ≠ k) : List.lookup k' (dictSet l k v) = List.lookup k' l := by
  induction l with
  | nil => simp [dictSet, List.lookup, string_beq_false h]
  | cons hd tl ih =>
      obtain ⟨k₀, v₀⟩ := hd
      by_cases h0 : k₀ = k
      · subst h0; simp [dictSet, List.lookup, string_beq_false h]
      · by_cases h1 : k' = k₀
        · subst h1; simp [dictSet, h0, List.lookup]
        · simp [dictSet, h0, List.lookup, ih, string_beq_false h1]

/-- Looking up a key of a key-indexed `map` image. -/
theorem lookup_map_pair {β : Type} (keys : List String) (f : String → β) (k : String)
    (h : k ∈ keys) :
    List.lookup k (keys.map (fun x => (x, f x))) = some (f k) := by
  induction keys with
  | nil => cases h
  | cons hd tl ih =>
      rcases List.mem_cons.mp h with h1 | h1
      · subst h1; simp [List.lookup]
      · by_cases h2 : k = hd
        · subst h2; simp [List.lookup]
        · simp [List.lookup, h2, ih h1, string_beq_false h2]

/-! ## Python string-order lemmas -/

theorem lex_lt_trans : ∀ {a b c : List Char}, lex_lt a b = true → lex_lt b c = true →
    lex_lt a c = true := by
  intro a
  induction a with
  | nil =>
      intro b c hab hbc
      cases b with
      | nil => simp [lex_lt] at hab
      | cons bh bt =>
          cases c with
          | nil => simp [lex_lt] at hbc
          | cons ch ct => simp [lex_lt]
  | cons ah as ih =>
      intro b c hab hbc
      cases b with
      | nil => simp [lex_lt] at hab
      | cons bh bt =>
          cases c with
          | nil => simp [lex_lt] at hbc
          | cons ch ct =>
              simp only [lex_lt] at hab hbc ⊢
              by_cases h1 : ah < bh
              · by_cases h2 : bh < ch
                · simp [lt_trans h1 h2]
                · by_cases h3 : ch < bh
                  · simp [h2, h3] at hbc
                  · have : bh = ch := le_antisymm (not_lt.mp h3) (not_lt.mp h2)
                    subst this
                    simp [h1]
              · by_cases h4 : bh < ah
                · simp [h1, h4] at hab
                · have hab' : ah = bh := le_antisymm (not_lt.mp h4) (not_lt.mp h1)
                  subst hab'
                  simp only [lt_irrefl, if_false] at hab
                  by_cases h2 : ah < ch
                  · simp [h2]
                  · by_cases h3 : ch < ah
                    · simp [h2, h3] at hbc
                    · have : ah = ch := le_antisymm (not_lt.mp h3) (not_lt.mp h2)
                      subst this
                      simp only [lt_irrefl, if_false] at hbc ⊢
                      exact ih hab hbc

theorem lex_le_eq_not_lt : ∀ (a b : List Char), lex_le a b = !lex_lt b a := by
  intro a
  induction a with
  | nil =>
      intro b
      cases b <;> simp [lex_le, lex_lt]
  | cons ah as ih =>
      intro b
      cases b with
      | nil => simp [lex_le, lex_lt]
      | cons bh bt =>
          simp only [lex_le, lex_lt]
          by_cases h1 : ah < bh
          · have h2 : ¬ bh < ah := lt_asymm h1
            simp [h1, h2]
          · by_cases h2 : bh < ah
            · simp [h1, h2]
            · simp [h1, h2, ih bt]

theorem py_str_le_eq_not_lt (s t : String) : py_str_le s t = !py_str_lt t s :=
  lex_le_eq_not_lt s.data t.data

theorem py_str_lt_trans {s t u : String} (h1 : py_str_lt s t = true)
    (h2 : py_str_lt t u = true) : py_str_lt s u = true :=
  lex_lt_trans h1 h2

/-! ## Stable-sort lemmas -/

theorem mem_insert_by_user_id (x y : Int × List String) (l : List (Int × List String)) :
    y ∈ insert_by_user_id x l ↔ y = x ∨ y ∈ l := by
  induction l with
  | nil => simp [insert_by_user_id]
  | cons hd tl ih =>
      by_cases h : x.1 ≤ hd.1
      · simp [insert_by_user_id, h]
      · simp [insert_by_user_id, h, ih]
        tauto

theorem sorted_insert_by_user_id (x : Int × List String) (l : List (Int × List String))
    (h : l.Pairwise (fun a b => a.1 ≤ b.1)) :
    (insert_by_user_id x l).Pairwise (fun a b => a.1 ≤ b.1) := by
  induction l with
  | nil => simp [insert_by_user_id]
  | cons hd tl ih =>
      rcases List.pairwise_cons.mp h with ⟨hhd, htl⟩
      by_cases hle : x.1 ≤ hd.1
      · rw [insert_by_user_id, if_pos hle]
        refine List.pairwise_cons.mpr ⟨?_, h⟩
        intro b hb
        rcases List.mem_cons.mp hb with hb | hb
        · subst hb; exact hle
        · exact le_trans hle (hhd b hb)
      · rw [insert_by_user_id, if_neg hle]
        refine List.pairwise_cons.mpr ⟨?_, ih htl⟩
        intro b hb
        rcases (mem_insert_by_user_id x b tl).mp hb with hb | hb
        · subst hb; exact le_of_lt (lt_of_not_le hle)
        · exact hhd b hb

theorem mem_sort_by_user_id (y : Int × List String) (l : List (Int × List String)) :
    y ∈ sort_by_user_id l ↔ y ∈ l := by
  induction l with
  | nil => simp [sort_by_user_id]
  | cons hd tl ih => simp [sort_by_user_id, mem_insert_by_user_id, ih]

theorem sorted_sort_by_user_id (l : List (Int × List String)) :
    (sort_by_user_id l).Pairwise (fun a b => a.1 ≤ b.1) := by
  induction l with
  | nil => simp [sort_by_user_id]
  | cons hd tl ih => exact sorted_insert_by_user_id hd _ ih

/-! ## Availability view lemmas -/

/-- Projection used to state the availability lemmas: the day dictionary a
user's record actually stores (empty for an unknown user or a non-dictionary
stored value).  `get_availability_from_state` is a normalized view of it. -/
def stored_availability (state : BotState) (user_id : Int) :
    List (String × List Interval) :=
  match List.lookup (toString user_id) state.users with
  | none => []
  | some user =>
      match user.availability with
      | some (.dict d) => d
      | _ => []

theorem lookup_empty_availability {day : String} (h : day ∈ DAY_KEYS) :
    List.lookup day empty_availability = some [] :=
  lookup_map_pair DAY_KEYS (fun _ => []) day h

theorem fill_missing_days_nil : fill_missing_days [] = empty_availability := by decide

theorem fill_missing_days_empty : fill_missing_days empty_availability = empty_availability := by
  decide

theorem lookup_get_availability (state : BotState) (user_id : Int) {day : String}
    (h : day ∈ DAY_KEYS) :
    List.lookup day (get_availability_from_state state user_id) =
      some ((List.lookup day (stored_availability state user_id)).getD []) := by
  cases hu : List.lookup (toString user_id) state.users with
  | none =>
      simp only [get_availability_from_state, stored_availability, hu]
      rw [lookup_empty_availability h]
      rfl
  | some user =>
      cases ha : user.availability with
      | none =>
          simp only [get_availability_from_state, stored_availability, hu, ha]
          rw [lookup_empty_availability h]
          rfl
      | some v =>
          cases v with
          | dict d =>
              simp only [get_availability_from_state, stored_availability, hu, ha]
              rw [lookup_map_pair DAY_KEYS _ day h]
          | nondict =>
              simp only [get_availability_from_state, stored_availability, hu, ha]
              rw [lookup_empty_availability h]
              rfl

theorem map_fst_get_availability (state : BotState) (user_id : Int) :
    (get_availability_from_state state user_id).map Prod.fst = DAY_KEYS := by
  have hmap : ∀ (f : String → List Interval),
      (DAY_KEYS.map (fun day => (day, f day))).map Prod.fst = DAY_KEYS := by
    intro f
    rw [List.map_map]
    exact List.map_id _
  have hempty : empty_availability.map Prod.fst = DAY_KEYS := hmap _
  cases hu : List.lookup (toString user_id) state.users with
  | none => simp only [get_availability_from_state, hu, hempty]
  | some user =>
      cases ha : user.availability with
      | none => simp only [get_availability_from_state, hu, ha, hempty]
      | some v =>
          cases v with
          | dict d => simp only [get_availability_from_state, hu, ha, hmap]
          | nondict => simp only [get_availability_from_state, hu, ha, hempty]

theorem mem_get_availability_value (state : BotState) (user_id : Int)
    (p : String × List Interval) (hp : p ∈ get_availability_from_state state user_id) :
    p.2 = (List.lookup p.1 (stored_availability state user_id)).getD [] := by
  have key : ∀ (f : String → List Interval),
      p ∈ DAY_KEYS.map (fun day => (day, f day)) → p.2 = f p.1 := by
    intro f hmem
    rcases List.mem_map.mp hmem with ⟨day, _, hdp⟩
    rw [← hdp]
  have hnil : p.2 = ([] : List Interval) → p.2 = (List.lookup p.1 ([] : List (String × List Interval))).getD [] := by
    intro h; rw [h]; rfl
  cases hu : List.lookup (toString user_id) state.users with
  | none =>
      simp only [get_availability_from_state, hu] at hp
      simp only [stored_availability, hu]
      exact hnil (key (fun _ => []) hp)
  | some user =>
      cases ha : user.availability with
      | none =>
          simp only [get_availability_from_state, hu, ha] at hp
          simp only [stored_availability, hu, ha]
          exact hnil (key (fun _ => []) hp)
      | some v =>
          cases v with
          | dict d =>
              simp only [get_availability_from_state, hu, ha] at hp
              simp only [stored_availability, hu, ha]
              exact key _ hp
          | nondict =>
              simp only [get_availability_from_state, hu, ha] at hp
              simp only [stored_availability, hu, ha]
              exact hnil (key (fun _ => []) hp)

theorem lookup_fill_missing_days_getD (av : List (String × List Interval)) (d : String) :
    (List.lookup d (fill_missing_days av)).getD [] = (List.lookup d av).getD [] := by
  have key : ∀ (keys : List String) (av : List (String × List Interval)),
      (List.lookup d (keys.foldl
        (fun av k => if (List.lookup k av).isSome then av else dictSet av k []) av)).getD [] =
      (List.lookup d av).getD [] := by
    intro keys
    induction keys with
    | nil => intro av; rfl
    | cons k ks ih =>
        intro av
        rw [List.foldl_cons, ih]
        by_cases hs : (List.lookup k av).isSome
        · rw [if_pos hs]
        · rw [if_neg hs]
          by_cases hdk : d = k
          · subst hdk
            rw [lookup_dictSet_self, Option.not_isSome_iff_eq_none.mp hs]
            rfl
          · rw [lookup_dictSet_ne _ _ _ _ hdk]
  exact key DAY_KEYS av

/-- The day dictionary stored after `set_day_availability_in_state`: the
previously stored dictionary (via `fill_missing_days [] = fill_missing_days
empty_availability = empty_availability` this also covers a fresh or reset
record), with the seven weekday keys filled in where missing, and `day`
replaced by the new interval list. -/
theorem set_day_availability_stored (state : BotState) (user_id : Int) (day : String)
    (start stop : Option String) :
    stored_availability (set_day_availability_in_state state user_id day start stop) user_id =
      dictSet (fill_missing_days (stored_availability state user_id)) day
        (if falsy_str start || falsy_str stop then []
         else [{ start := start.getD "", stop := stop.getD "" }]) := by
  cases hu : List.lookup (toString user_id) state.users with
  | none =>
      simp only [set_day_availability_in_state, stored_availability, hu, Option.isSome_none,
        Bool.false_eq_true, if_false, lookup_dictSet_self, fill_missing_days_nil,
        fill_missing_days_empty]
      split <;> rfl
  | some user =>
      cases ha : user.availability with
      | none =>
          simp only [set_day_availability_in_state, stored_availability, hu, ha,
            Option.isSome_some, if_true, lookup_dictSet_self, fill_missing_days_nil,
            fill_missing_days_empty]
          split <;> rfl
      | some v =>
          cases v with
          | dict d =>
              simp only [set_day_availability_in_state, stored_availability, hu, ha,
                Option.isSome_some, if_true, lookup_dictSet_self]
              split <;> rfl
          | nondict =>
              simp only [set_day_availability_in_state, stored_availability, hu, ha,
                Option.isSome_some, if_true, lookup_dictSet_self, fill_missing_days_nil,
                fill_missing_days_empty]
              split <;> rfl

/-- C8: for every store state and every user identifier (known or not),
`getAvailability` returns a mapping whose keys are exactly the seven weekday
keys, every value being the stored day's interval list with missing or
malformed entries defaulted to the empty list. -/
theorem get_availability_seven_keys (state : BotState) (user_id : Int) :
    ((get_availability_from_state state user_id).map Prod.fst = DAY_KEYS) ∧
    (∀ p, p ∈ get_availability_from_state state user_id →
      p.2 = (List.lookup p.1 (stored_availability state user_id)).getD []) :=
  ⟨map_fst_get_availability state user_id, mem_get_availability_value state user_id⟩

theorem get_availability_seven_keys_witness :
    ((get_availability_from_state ⟨[]⟩ 5).map Prod.fst = DAY_KEYS) ∧
    (("mon", ([] : List Interval)).2 =
      (List.lookup ("mon", ([] : List Interval)).1 (stored_availability ⟨[]⟩ 5)).getD []) :=
  ⟨(get_availability_seven_keys ⟨[]⟩ 5).1,
   (get_availability_seven_keys ⟨[]⟩ 5).2 ("mon", []) (by decide)⟩

/-- C9: for a weekday key `day`, `setAvailability` with an absent or empty
start or end clears that day's interval list; with both present it replaces
the day's list wholesale by the single interval `[start, end)`; and the view
of every other weekday is unchanged. -/
theorem set_day_availability_replaces (state : BotState) (user_id : Int) (day : String)
    (start stop : Option String) (hday : day ∈ DAY_KEYS) :
    ((falsy_str start || falsy_str stop) = true →
      List.lookup day (get_availability_from_state
        (set_day_availability_in_state state user_id day start stop) user_id) = some []) ∧
    (∀ s e, start = some s → stop = some e → s ≠ "" → e ≠ "" →
      List.lookup day (get_availability_from_state
        (set_day_availability_in_state state user_id day start stop) user_id) =
        some [{ start := s, stop := e }]) ∧
    (∀ d, d ∈ DAY_KEYS → d ≠ day →
      List.lookup d (get_availability_from_state
        (set_day_availability_in_state state user_id day start stop) user_id) =
      List.lookup d (get_availability_from_state state user_id)) := by
  refine ⟨?_, ?_, ?_⟩
  · intro hf
    rw [lookup_get_availability _ _ hday, set_day_availability_stored]
    rw [lookup_dictSet_self]
    simp [hf]
  · intro s e hs he hsne hene
    subst hs; subst he
    have hf : (falsy_str (some s) || falsy_str (some e)) = false := by
      simp [falsy_str, hsne, hene]
    rw [lookup_get_availability _ _ hday, set_day_availability_stored]
    rw [lookup_dictSet_self]
    simp [hf]
  · intro d hd hne
    rw [lookup_get_availability _ _ hd, set_day_availability_stored]
    rw [lookup_dictSet_ne _ _ _ _ hne, lookup_fill_missing_days_getD]
    rw [lookup_get_availability _ _ hd]

/-! ## Availability evaluation lemmas -/

theorem is_user_available_now_resolved (env : TZEnv) (state : BotState) (user_id : Int)
    (now_utc : Nat) (tz_name : String) (tz : TZInfo)
    (h1 : get_timezone_from_state state user_id = some tz_name)
    (h2 : env.resolve tz_name = some tz) :
    is_user_available_now env state user_id now_utc =
      ((List.lookup (day_key_of (tz.localWeekday now_utc))
          (get_availability_from_state state user_id)).getD []).any
        (fun slot => slot_matches slot (tz.localHHMM now_utc)) := by
  simp only [is_user_available_now, h1, h2]

theorem slot_matches_false_of_midnight (slot : Interval) (t : String)
    (h : py_str_lt slot.stop slot.start = true) : slot_matches slot t = false := by
  rw [Bool.eq_false_iff]
  intro hm
  have hboth : py_str_le slot.start t = true ∧ py_str_lt t slot.stop = true := by
    simpa [slot_matches] using hm
  rcases hboth with ⟨hle, hlt⟩
  have hlt2 : py_str_lt t slot.start = true := py_str_lt_trans hlt h
  rw [py_str_le_eq_not_lt, hlt2] at hle
  cases hle

theorem lookup_mem_values {V : Type} (l : List (String × V)) (k : String) (v : V)
    (h : List.lookup k l = some v) : v ∈ l.map Prod.snd := by
  induction l with
  | nil => cases h
  | cons hd tl ih =>
      obtain ⟨k', v'⟩ := hd
      by_cases hk : k = k'
      · subst hk
        simp only [List.lookup, beq_self_eq_true] at h
        obtain rfl := Option.some.inj h
        simp
      · simp only [List.lookup, string_beq_false hk] at h
        simp [ih h]

/-! ## Match-finder lemmas -/

theorem ready_candidates_mem (env : TZEnv) (st : BotState) (inv : Int) (now : Nat)
    (gf : Option String) :
    ∀ (us : List (String × PyUser)) (l : List (Int × List String)),
      ready_candidates env st inv now gf us = some l →
      ∀ p, p ∈ l → p.1 ≠ inv ∧ is_user_available_now env st p.1 now = true ∧ p.2 ≠ [] := by
  intro us
  induction us with
  | nil =>
      intro l h p hp
      simp only [ready_candidates, Option.some.injEq] at h
      subst h
      simp at hp
  | cons hd tl ih =>
      intro l h p hp
      obtain ⟨user_key, u⟩ := hd
      simp only [ready_candidates] at h
      cases hk : str_to_int user_key with
      | none => rw [hk] at h; cases h
      | some other_id =>
          simp only [hk] at h
          cases hr : ready_candidates env st inv now gf tl with
          | none => simp only [hr] at h; cases h
          | some tail =>
              simp only [hr] at h
              by_cases he : other_id = inv
              · rw [if_pos he] at h
                obtain rfl := Option.some.inj h
                exact ih _ hr p hp
              · rw [if_neg he] at h
                cases hav : is_user_available_now env st other_id now with
                | false =>
                    simp only [hav, Bool.not_false, if_true] at h
                    obtain rfl := Option.some.inj h
                    exact ih _ hr p hp
                | true =>
                    simp only [hav, Bool.not_true, Bool.false_eq_true, if_false] at h
                    cases hc : (get_common_games st inv other_id).isEmpty with
                    | true =>
                        simp only [hc, if_true] at h
                        obtain rfl := Option.some.inj h
                        exact ih _ hr p hp
                    | false =>
                        simp only [hc, Bool.false_eq_true, if_false] at h
                        have hcne : get_common_games st inv other_id ≠ [] := by
                          intro hnil; rw [hnil] at hc; cases hc
                        have hkeep : ∀ cg, cg ≠ [] →
                            some ((other_id, cg) :: tail) = some l →
                            p.1 ≠ inv ∧ is_user_available_now env st p.1 now = true ∧
                              p.2 ≠ [] := by
                          intro cg hcg hsome
                          obtain rfl := Option.some.inj hsome
                          rcases List.mem_cons.mp hp with hph | hpt
                          · subst hph
                            exact ⟨he, hav, hcg⟩
                          · exact ih _ hr p hpt
                        cases gf with
                        | none => exact hkeep _ hcne h
                        | some f =>
                            cases hf : (f == "") with
                            | true =>
                                simp only [hf, if_true] at h
                                exact hkeep _ hcne h
                            | false =>
                                simp only [hf, Bool.false_eq_true, if_false] at h
                                cases hc2 : ((get_common_games st inv other_id).filter
                                    (fun g => normalize_game_name g ==
                                      normalize_game_name f)).isEmpty with
                                | true =>
                                    simp only [hc2, if_true] at h
                                    obtain rfl := Option.some.inj h
                                    exact ih _ hr p hp
                                | false =>
                                    simp only [hc2, Bool.false_eq_true, if_false] at h
                                    have : ((get_common_games st inv other_id).filter
                                        (fun g => normalize_game_name g ==
                                          normalize_game_name f)) ≠ [] := by
                                      intro hnil; rw [hnil] at hc2; cases hc2
                                    exact hkeep _ this h

theorem find_ready_players_mem (env : TZEnv) (st : BotState) (inv : Int) (now : Nat)
    (gf : Option String) (l : List (Int × List String))
    (h : find_ready_players env st inv now gf = some l) :
    ∀ p, p ∈ l → p.1 ≠ inv ∧ is_user_available_now env st p.1 now = true ∧ p.2 ≠ [] := by
  unfold find_ready_players at h
  cases hr : ready_candidates env st inv now gf st.users with
  | none => rw [hr] at h; cases h
  | some results =>
      rw [hr] at h
      obtain rfl := Option.some.inj h
      intro p hp
      exact ready_candidates_mem env st inv now gf st.users results hr p
        ((mem_sort_by_user_id p results).mp hp)

theorem set_day_availability_replaces_witness :
    (List.lookup "mon" (get_availability_from_state
      (set_day_availability_in_state ⟨[]⟩ 3 "mon" (some "09:00") (some "17:00")) 3) =
      some [{ start := "09:00", stop := "17:00" }]) ∧
    (List.lookup "tue" (get_availability_from_state
      (set_day_availability_in_state ⟨[]⟩ 3 "mon" (some "09:00") (some "17:00")) 3) =
      List.lookup "tue" (get_availability_from_state ⟨[]⟩ 3)) ∧
    (List.lookup "mon" (get_availability_from_state
      (set_day_availability_in_state ⟨[]⟩ 4 "mon" none none) 4) = some []) :=
  ⟨(set_day_availability_replaces ⟨[]⟩ 3 "mon" _ _ (by decide)).2.1 "09:00" "17:00"
      rfl rfl (by decide) (by decide),
   (set_day_availability_replaces ⟨[]⟩ 3 "mon" _ _ (by decide)).2.2 "tue"
      (by decide) (by decide),
   (set_day_availability_replaces ⟨[]⟩ 4 "mon" none none (by decide)).1 (by decide)⟩

/-! ## Claims about availability evaluation (C1–C3) -/

/-- C1: when the user's timezone resolves, `isAvailableNow` is true exactly
when some interval of the local weekday contains the local time-of-day string
`t` under lexicographic string comparison, start inclusive and end exclusive;
in particular, when the weekday's interval list is the single interval
`[start, end)` with `start <= end`, the result is true iff
`start <= t < end`. -/
theorem available_now_slot_containment (env : TZEnv) (state : BotState) (user_id : Int)
    (now_utc : Nat) (tz_name : String) (tz : TZInfo) (t : String)
    (h1 : get_timezone_from_state state user_id = some tz_name)
    (h2 : env.resolve tz_name = some tz)
    (h3 : tz.localHHMM now_utc = t) :
    (is_user_available_now env state user_id now_utc = true ↔
      ∃ slot ∈ (List.lookup (day_key_of (tz.localWeekday now_utc))
          (get_availability_from_state state user_id)).getD [],
        py_str_le slot.start t = true ∧ py_str_lt t slot.stop = true) ∧
    (∀ start stop,
      (List.lookup (day_key_of (tz.localWeekday now_utc))
          (get_availability_from_state state user_id)).getD [] =
        [{ start := start, stop := stop }] →
      py_str_le start stop = true →
      (is_user_available_now env state user_id now_utc = true ↔
        (py_str_le start t = true ∧ py_str_lt t stop = true))) := by
  subst h3
  have hany := is_user_available_now_resolved env state user_id now_utc tz_name tz h1 h2
  constructor
  · rw [hany]
    simp [List.any_eq_true, slot_matches, Bool.and_eq_true]
  · intro start stop hs hle
    rw [hany, hs]
    simp [slot_matches, Bool.and_eq_true]

/-- A user whose only availability interval runs 18:00–20:00 on Mondays is
available at Monday 18:00 local time and not at Monday 20:00. -/
def c1State : BotState :=
  ⟨[("9", { games := some [], timezone := some (.str "UTC"),
            availability := some (.dict [("mon", [{ start := "18:00", stop := "20:00" }])]) })]⟩

theorem available_now_slot_containment_witness :
    is_user_available_now utcEnv c1State 9 6840 = true ∧
    is_user_available_now utcEnv c1State 9 6960 = false := by
  constructor
  · exact ((available_now_slot_containment utcEnv c1State 9 6840 "UTC" utcInfo "18:00"
      (by decide) rfl (by decide)).2 "18:00" "20:00" (by decide) (by decide)).mpr (by decide)
  · have hiff := ((available_now_slot_containment utcEnv c1State 9 6960 "UTC" utcInfo "20:00"
      (by decide) rfl (by decide)).2 "18:00" "20:00" (by decide) (by decide))
    exact Bool.eq_false_iff.mpr (fun h =>
      (by decide : ¬(py_str_le "18:00" "20:00" = true ∧ py_str_lt "20:00" "20:00" = true))
        (hiff.mp h))

/-- C2: an interval whose end string compares lexicographically below its
start never matches any local time, and a user all of whose stored intervals
are such midnight-spanning intervals is reported unavailable at every
instant. -/
theorem midnight_slot_never_matches :
    (∀ (slot : Interval) (t : String), py_str_lt slot.stop slot.start = true →
      slot_matches slot t = false) ∧
    (∀ (env : TZEnv) (state : BotState) (user_id : Int) (now_utc : Nat),
      (∀ day slots slot,
        List.lookup day (get_availability_from_state state user_id) = some slots →
        slot ∈ slots → py_str_lt slot.stop slot.start = true) →
      is_user_available_now env state user_id now_utc = false) := by
  refine ⟨slot_matches_false_of_midnight, ?_⟩
  intro env state user_id now_utc hall
  cases h1 : get_timezone_from_state state user_id with
  | none => simp [is_user_available_now, h1]
  | some tz_name =>
      cases h2 : env.resolve tz_name with
      | none => simp [is_user_available_now, h1, h2]
      | some tz =>
          rw [is_user_available_now_resolved env state user_id now_utc tz_name tz h1 h2]
          cases hlk : List.lookup (day_key_of (tz.localWeekday now_utc))
              (get_availability_from_state state user_id) with
          | none => rfl
          | some slots =>
              simp only [Option.getD_some]
              rw [List.any_eq_false]
              intro slot hslot
              rw [slot_matches_false_of_midnight slot _ (hall _ _ _ hlk hslot)]
              simp

/-- A user whose schedule has the single midnight-spanning interval
22:00–06:00 every day. -/
def c2State : BotState :=
  ⟨[("8", { games := some [], timezone := some (.str "UTC"),
            availability := some (.dict (DAY_KEYS.map
              (fun d => (d, [{ start := "22:00", stop := "06:00" }])))) })]⟩

theorem midnight_slot_never_matches_witness :
    slot_matches { start := "22:00", stop := "06:00" } "23:00" = false ∧
    is_user_available_now utcEnv c2State 8 6840 = false := by
  constructor
  · exact midnight_slot_never_matches.1 { start := "22:00", stop := "06:00" } "23:00" (by decide)
  · refine midnight_slot_never_matches.2 utcEnv c2State 8 6840 ?_
    intro day slots slot hlk hmem
    have hv := lookup_mem_values _ _ _ hlk
    have hslots : slots = [{ start := "22:00", stop := "06:00" }] := by
      have : ∀ v ∈ (get_availability_from_state c2State 8).map Prod.snd,
          v = [({ start := "22:00", stop := "06:00" } : Interval)] := by decide
      exact this slots hv
    subst hslots
    have : slot = { start := "22:00", stop := "06:00" } := List.mem_singleton.mp hmem
    subst this
    decide

/-- C3: a user without a usable timezone — none configured (the stored value
absent, not a string, or the empty string) or an identifier the timezone
database cannot resolve — is never available and never appears in
`findReadyPlayers` results. -/
theorem unusable_timezone_never_available :
    (∀ (state : BotState) (user_id : Int),
      (match List.lookup (toString user_id) state.users with
       | none => True
       | some user =>
          match user.timezone with
          | some (.str s) => s = ""
          | _ => True) ↔ get_timezone_from_state state user_id = none) ∧
    (∀ (env : TZEnv) (state : BotState) (user_id : Int) (now_utc : Nat),
      get_timezone_from_state state user_id = none →
      is_user_available_now env state user_id now_utc = false) ∧
    (∀ (env : TZEnv) (state : BotState) (user_id : Int) (now_utc : Nat) tz_name,
      get_timezone_from_state state user_id = some tz_name →
      env.resolve tz_name = none →
      is_user_available_now env state user_id now_utc = false) ∧
    (∀ (env : TZEnv) (state : BotState) (invoker_id : Int) (now_utc : Nat)
        (game_filter : Option String) (l : List (Int × List String)) (user_id : Int),
      find_ready_players env state invoker_id now_utc game_filter = some l →
      (get_timezone_from_state state user_id = none ∨
        ∃ tz_name, get_timezone_from_state state user_id = some tz_name ∧
          env.resolve tz_name = none) →
      ∀ gs, (user_id, gs) ∉ l) := by
  refine ⟨?_, ?_, ?_, ?_⟩
  · intro state user_id
    cases hu : List.lookup (toString user_id) state.users with
    | none => simp [get_timezone_from_state, hu]
    | some user =>
        cases ht : user.timezone with
        | none => simp [get_timezone_from_state, hu, ht]
        | some v =>
            cases v with
            | nonstr => simp [get_timezone_from_state, hu, ht]
            | str s =>
                by_cases hs : s = ""
                · subst hs; simp [get_timezone_from_state, hu, ht]
                · simp [get_timezone_from_state, hu, ht, hs, string_beq_false hs]
  · intro env state user_id now_utc h
    simp [is_user_available_now, h]
  · intro env state user_id now_utc tz_name h1 h2
    simp [is_user_available_now, h1, h2]
  · intro env state invoker_id now_utc game_filter l user_id hfind hbad gs hmem
    have havail :=
      (find_ready_players_mem env state invoker_id now_utc game_filter l hfind _ hmem).2.1
    rcases hbad with hnone | ⟨tz_name, hsome, hres⟩
    · rw [show is_user_available_now env state user_id now_utc = false by
        simp [is_user_available_now, hnone]] at havail
      cases havail
    · rw [show is_user_available_now env state user_id now_utc = false by
        simp [is_user_available_now, hsome, hres]] at havail
      cases havail

/-- User 3 has games and availability but no timezone; user 4 has an
unresolvable timezone; user 1 is a normal invoker. -/
def c3State : BotState :=
  ⟨[("1", { games := some ["Chess"], timezone := some (.str "UTC"),
            availability := some (.dict [("mon", [{ start := "00:00", stop := "23:59" }])]) }),
    ("3", { games := some ["Chess"], timezone := none,
            availability := some (.dict [("mon", [{ start := "00:00", stop := "23:59" }])]) }),
    ("4", { games := some ["Chess"], timezone := some (.str "Mars/Olympus"),
            availability := some (.dict [("mon", [{ start := "00:00", stop := "23:59" }])]) })]⟩

theorem unusable_timezone_never_available_witness :
    is_user_available_now utcEnv c3State 3 6360 = false ∧
    is_user_available_now utcEnv c3State 4 6360 = false ∧
    ∀ gs, ((3 : Int), gs) ∉ ([] : List (Int × List String)) :=
  ⟨unusable_timezone_never_available.2.1 utcEnv c3State 3 6360 (by decide),
   unusable_timezone_never_available.2.2.1 utcEnv c3State 4 6360 "Mars/Olympus" (by decide) rfl,
   fun gs => unusable_timezone_never_available.2.2.2 utcEnv c3State 1 6360 none [] 3
     (by decide) (Or.inl (by decide)) gs⟩

/-! ## Claims about match finding (C4–C5) -/

/-- C4: whenever `findReadyPlayers` returns a result list, no pair in it is
keyed by the invoker's identifier and the list is sorted by ascending user
identifier. -/
theorem find_ready_sorted_excludes_invoker (env : TZEnv) (state : BotState)
    (invoker_id : Int) (now_utc : Nat) (game_filter : Option String)
    (l : List (Int × List String))
    (h : find_ready_players env state invoker_id now_utc game_filter = some l) :
    (∀ p ∈ l, p.1 ≠ invoker_id) ∧ l.Pairwise (fun a b => a.1 ≤ b.1) := by
  constructor
  · intro p hp
    exact (find_ready_players_mem env state invoker_id now_utc game_filter l h p hp).1
  · unfold find_ready_players at h
    cases hr : ready_candidates env state invoker_id now_utc game_filter state.users with
    | none => rw [hr] at h; cases h
    | some results =>
        rw [hr] at h
        obtain rfl := Option.some.inj h
        exact sorted_sort_by_user_id results

/-- Users 1 and 2 share chess (with different spellings and casings) and are
both available Monday 09:00–17:00 UTC; 6360 is a Monday 10:00 UTC instant. -/
def readyState : BotState :=
  ⟨[("2", { games := some ["chess"], timezone := some (.str "UTC"),
            availability := some (.dict [("mon", [{ start := "09:00", stop := "17:00" }])]) }),
    ("1", { games := some ["Chess", "Go"], timezone := some (.str "UTC"),
            availability := some (.dict [("mon", [{ start := "09:00", stop := "17:00" }])]) }),
    ("5", { games := some ["Chess"], timezone := some (.str "UTC"),
            availability := some (.dict [("mon", [{ start := "09:00", stop := "17:00" }])]) })]⟩

theorem find_ready_sorted_excludes_invoker_witness :
    (∀ p ∈ [((2 : Int), ["Chess"]), ((5 : Int), ["Chess"])], p.1 ≠ (1 : Int)) ∧
    ([((2 : Int), ["Chess"]), ((5 : Int), ["Chess"])] : List (Int × List String)).Pairwise
      (fun a b => a.1 ≤ b.1) :=
  find_ready_sorted_excludes_invoker utcEnv readyState 1 6360 none
    [(2, ["Chess"]), (5, ["Chess"])] (by decide)

/-- C5: the common-games list is exactly the invoker's game list filtered to
the entries whose normalized form occurs among the candidate's games — hence
a sublist of the invoker's list, in the invoker's order and spelling — and
every pair returned by `findReadyPlayers` carries a non-empty such list. -/
theorem common_games_characterization :
    (∀ (state : BotState) (user_id_a user_id_b : Int),
      get_common_games state user_id_a user_id_b =
        (list_games_from_state state user_id_a).filter
          (fun g => decide (∃ h ∈ list_games_from_state state user_id_b,
            normalize_game_name h = normalize_game_name g))) ∧
    (∀ (state : BotState) (user_id_a user_id_b : Int),
      (get_common_games state user_id_a user_id_b).Sublist
        (list_games_from_state state user_id_a)) ∧
    (∀ (env : TZEnv) (state : BotState) (invoker_id : Int) (now_utc : Nat)
        (game_filter : Option String) (l : List (Int × List String)),
      find_ready_players env state invoker_id now_utc game_filter = some l →
      ∀ p ∈ l, p.2 ≠ []) := by
  refine ⟨?_, ?_, ?_⟩
  · intro state a b
    unfold get_common_games
    apply List.filter_congr
    intro g _
    rw [Bool.eq_iff_iff]
    constructor
    · intro hc
      have hmem : normalize_game_name g ∈
          (list_games_from_state state b).map normalize_game_name := by
        simpa using hc
      rcases List.mem_map.mp hmem with ⟨x, hx, hnx⟩
      exact decide_eq_true ⟨x, hx, hnx⟩
    · intro hd
      rcases of_decide_eq_true hd with ⟨x, hx, hnx⟩
      have hmem : normalize_game_name g ∈
          (list_games_from_state state b).map normalize_game_name :=
        List.mem_map.mpr ⟨x, hx, hnx⟩
      simpa using hmem
  · intro state a b
    unfold get_common_games
    exact List.filter_sublist _
  · intro env state invoker_id now_utc game_filter l h p hp
    exact (find_ready_players_mem env state invoker_id now_utc game_filter l h p hp).2.2

theorem common_games_characterization_witness :
    (get_common_games readyState 1 2 =
      (list_games_from_state readyState 1).filter
        (fun g => decide (∃ h ∈ list_games_from_state readyState 2,
          normalize_game_name h = normalize_game_name g))) ∧
    ((2 : Int), ["Chess"]).2 ≠ [] :=
  ⟨common_games_characterization.1 readyState 1 2,
   common_games_characterization.2.2 utcEnv readyState 1 6360 none
     [(2, ["Chess"]), (5, ["Chess"])] (by decide) (2, ["Chess"]) (by decide)⟩

/-! ## Game-list update lemmas -/

theorem add_game_update_no_match (games : List String) (g : String)
    (h : ∀ x ∈ games, normalize_game_name x ≠ normalize_game_name g) :
    add_game_update games g = games ++ [g] := by
  induction games with
  | nil => rfl
  | cons a rest ih =>
      have ha : (normalize_game_name a == normalize_game_name g) = false :=
        string_beq_false (h a (List.mem_cons_self a rest))
      rw [add_game_update, ha]
      simp only [Bool.false_eq_true, if_false, List.cons_append, List.cons.injEq, true_and]
      exact ih (fun x hx => h x (List.mem_cons_of_mem a hx))

theorem add_game_update_countP (games : List String) (g : String) :
    (add_game_update games g).countP
        (fun x => normalize_game_name x == normalize_game_name g) =
      if games.countP (fun x => normalize_game_name x == normalize_game_name g) = 0 then 1
      else games.countP (fun x => normalize_game_name x == normalize_game_name g) := by
  induction games with
  | nil => simp [add_game_update, List.countP_cons]
  | cons a rest ih =>
      cases hb : (normalize_game_name a == normalize_game_name g) with
      | true =>
          have h1 : (add_game_update (a :: rest) g).countP
              (fun x => normalize_game_name x == normalize_game_name g) =
              rest.countP (fun x => normalize_game_name x == normalize_game_name g) + 1 := by
            simp [add_game_update, hb, List.countP_cons]
          have h2 : ((a :: rest).countP
              (fun x => normalize_game_name x == normalize_game_name g)) =
              rest.countP (fun x => normalize_game_name x == normalize_game_name g) + 1 := by
            simp [List.countP_cons, hb]
          rw [h1, h2, if_neg (by omega)]
      | false =>
          simp only [add_game_update, hb, Bool.false_eq_true, if_false, List.countP_cons]
          by_cases hz : rest.countP
              (fun x => normalize_game_name x == normalize_game_name g) = 0
          · simp [hz, ih]
          · simp [hz, ih]

theorem countP_le_one_of_nodup (games : List String) (c : String)
    (h : (games.map normalize_game_name).Nodup) :
    games.countP (fun x => normalize_game_name x == c) ≤ 1 := by
  induction games with
  | nil => simp
  | cons a rest ih =>
      rw [List.map_cons, List.nodup_cons] at h
      obtain ⟨hnot, hrest⟩ := h
      rw [List.countP_cons]
      cases hb : (normalize_game_name a == c) with
      | false => simpa [hb] using ih hrest
      | true =>
          have hzero : rest.countP (fun x => normalize_game_name x == c) = 0 := by
            rw [List.countP_eq_zero]
            intro x hx hxc
            exact hnot (List.mem_map.mpr ⟨x, hx, (eq_of_beq hxc).trans (eq_of_beq hb).symm⟩)
          simp [hb, hzero]

theorem add_game_update_two_step (games : List String) (g1 g2 : String)
    (hn : normalize_game_name g1 = normalize_game_name g2) :
    ∃ i, (add_game_update games g1)[i]? = some g1 ∧
      add_game_update (add_game_update games g1) g2 = (add_game_update games g1).set i g2 := by
  induction games with
  | nil =>
      refine ⟨0, rfl, ?_⟩
      simp only [add_game_update, hn, beq_self_eq_true, if_true]
      rfl
  | cons a rest ih =>
      cases hb : (normalize_game_name a == normalize_game_name g1) with
      | true =>
          refine ⟨0, ?_, ?_⟩
          · simp only [add_game_update, hb, if_true]
            simp
          · simp only [add_game_update, hb, if_true]
            rw [hn]
            simp
      | false =>
          obtain ⟨i, hgi, hstep⟩ := ih
          have hb2 : (normalize_game_name a == normalize_game_name g2) = false := by
            rw [← hn]; exact hb
          refine ⟨i + 1, ?_, ?_⟩
          · simp only [add_game_update, hb, Bool.false_eq_true, if_false]
            simpa using hgi
          · simp only [add_game_update, hb, hb2, Bool.false_eq_true, if_false]
            rw [hstep]
            rfl

/-- Effect of `add_game_to_state` on the stored game list, plus the frame
property on every other user key. -/
theorem add_game_to_state_games (st : BotState) (uid : Int) (g : String) (st' : BotState)
    (h : add_game_to_state st uid g = some st') :
    list_games_from_state st' uid = add_game_update (list_games_from_state st uid) g ∧
    (∀ k, k ≠ toString uid → List.lookup k st'.users = List.lookup k st.users) := by
  cases hu : List.lookup (toString uid) st.users with
  | none =>
      simp only [add_game_to_state, hu, Option.isSome_none, Bool.false_eq_true, if_false,
        lookup_dictSet_self, Option.some.injEq] at h
      subst h
      constructor
      · simp only [list_games_from_state, lookup_dictSet_self, hu]
      · intro k hk
        rw [lookup_dictSet_ne _ _ _ _ hk, lookup_dictSet_ne _ _ _ _ hk]
  | some user =>
      cases hg : user.games with
      | none =>
          simp only [add_game_to_state, hu, Option.isSome_some, if_true, hg] at h
          cases h
      | some games =>
          simp only [add_game_to_state, hu, Option.isSome_some, if_true, hg,
            Option.some.injEq] at h
          subst h
          constructor
          · simp only [list_games_from_state, lookup_dictSet_self, hu, hg]
          · intro k hk
            rw [lookup_dictSet_ne _ _ _ _ hk]

/-- C6: adding a game whose normalized form matches an existing entry
overwrites that entry in place (the later write wins, same position), leaving
exactly one entry of that normalized form; adding a game with no normalized
match appends it at the end. -/
theorem add_game_normalized_overwrite :
    (∀ (state : BotState) (user_id : Int) (g1 g2 : String) (st1 st2 : BotState),
      normalize_game_name g1 = normalize_game_name g2 →
      ((list_games_from_state state user_id).map normalize_game_name).Nodup →
      add_game_to_state state user_id g1 = some st1 →
      add_game_to_state st1 user_id g2 = some st2 →
      (list_games_from_state st2 user_id).countP
          (fun x => normalize_game_name x == normalize_game_name g2) = 1 ∧
      ∃ i, (list_games_from_state st1 user_id)[i]? = some g1 ∧
        list_games_from_state st2 user_id = (list_games_from_state st1 user_id).set i g2) ∧
    (∀ (state : BotState) (user_id : Int) (g : String) (st' : BotState),
      (∀ x ∈ list_games_from_state state user_id,
        normalize_game_name x ≠ normalize_game_name g) →
      add_game_to_state state user_id g = some st' →
      list_games_from_state st' user_id = list_games_from_state state user_id ++ [g]) := by
  constructor
  · intro state user_id g1 g2 st1 st2 hn hnodup h1 h2
    have e1 := (add_game_to_state_games state user_id g1 st1 h1).1
    have e2 := (add_game_to_state_games st1 user_id g2 st2 h2).1
    constructor
    · rw [e2, e1]
      rw [add_game_update_countP]
      have hc1 : (add_game_update (list_games_from_state state user_id) g1).countP
          (fun x => normalize_game_name x == normalize_game_name g2) = 1 := by
        rw [← hn, add_game_update_countP]
        have hle := countP_le_one_of_nodup (list_games_from_state state user_id)
          (normalize_game_name g1) hnodup
        by_cases hz : (list_games_from_state state user_id).countP
            (fun x => normalize_game_name x == normalize_game_name g1) = 0
        · rw [if_pos hz]
        · rw [if_neg hz]
          omega
      rw [hc1]
      simp
    · rw [e2, e1]
      exact add_game_update_two_step (list_games_from_state state user_id) g1 g2 hn
  · intro state user_id g st' hno h
    rw [(add_game_to_state_games state user_id g st' h).1]
    exact add_game_update_no_match _ _ hno

/-- State after adding `"Stardew Valley"` for user 7 to the empty store. -/
def c6St1 : BotState :=
  ⟨[("7", { games := some ["Stardew Valley"], timezone := none, availability := none })]⟩

/-- State after then adding `"stardewvalley"`: one entry, respelled in place. -/
def c6St2 : BotState :=
  ⟨[("7", { games := some ["stardewvalley"], timezone := none, availability := none })]⟩

theorem add_game_normalized_overwrite_witness :
    ((list_games_from_state c6St2 7).countP
        (fun x => normalize_game_name x == normalize_game_name "stardewvalley") = 1 ∧
      ∃ i, (list_games_from_state c6St1 7)[i]? = some "Stardew Valley" ∧
        list_games_from_state c6St2 7 = (list_games_from_state c6St1 7).set i "stardewvalley") ∧
    (list_games_from_state c6St1 7 =
      list_games_from_state (⟨[]⟩ : BotState) 7 ++ ["Stardew Valley"]) :=
  ⟨add_game_normalized_overwrite.1 ⟨[]⟩ 7 "Stardew Valley" "stardewvalley" c6St1 c6St2
      (by decide) (by decide) (by decide) (by decide),
   add_game_normalized_overwrite.2 ⟨[]⟩ 7 "Stardew Valley" c6St1 (by decide) (by decide)⟩

/-! ## Game-removal lemmas -/

theorem remove_game_no_match (st : BotState) (uid : Int) (g : String)
    (h : ∀ x ∈ list_games_from_state st uid,
      normalize_game_name x ≠ normalize_game_name g) :
    remove_game_from_state st uid g = (false, st) := by
  cases hu : List.lookup (toString uid) st.users with
  | none => simp [remove_game_from_state, hu]
  | some user =>
      cases hg : user.games with
      | none => simp [remove_game_from_state, hu, hg]
      | some games =>
          have hlist : list_games_from_state st uid = games := by
            simp [list_games_from_state, hu, hg]
          rw [hlist] at h
          cases he : games.isEmpty with
          | true => simp [remove_game_from_state, hu, hg, he]
          | false =>
              have hfind : games.find?
                  (fun game => normalize_game_name game == normalize_game_name g) = none :=
                List.find?_eq_none.mpr (fun x hx => by simp [string_beq_false (h x hx)])
              simp [remove_game_from_state, hu, hg, he, hfind]

theorem remove_game_found (st : BotState) (uid : Int) (g game : String)
    (user : PyUser) (games : List String)
    (hu : List.lookup (toString uid) st.users = some user)
    (hg : user.games = some games)
    (hf : games.find? (fun x => normalize_game_name x == normalize_game_name g) = some game) :
    remove_game_from_state st uid g =
      (true, ⟨dictSet st.users (toString uid)
        { user with games := some (games.erase game) }⟩) := by
  have hne : games.isEmpty = false := by
    cases games with
    | nil => cases hf
    | cons a rest => rfl
  simp [remove_game_from_state, hu, hg, hne, hf]

/-- The element `find?` locates under the normalized-match predicate sits at
the first matching index, and Python's `games.remove(game)` (first
literally-equal occurrence) removes exactly that index: any earlier literal
occurrence would itself have been a normalized match. -/
theorem games_find_erase (q : String) :
    ∀ (games : List String) (game : String),
      games.find? (fun x => normalize_game_name x == q) = some game →
      ∃ i, games[i]? = some game ∧ normalize_game_name game = q ∧
        (∀ j y, j < i → games[j]? = some y → normalize_game_name y ≠ q) ∧
        games.erase game = games.eraseIdx i := by
  intro games
  induction games with
  | nil => intro game h; cases h
  | cons a rest ih =>
      intro game h
      cases hb : (normalize_game_name a == q) with
      | true =>
          simp only [List.find?, hb] at h
          obtain rfl := Option.some.inj h
          refine ⟨0, by simp, eq_of_beq hb, ?_, ?_⟩
          · intro j y hj hy
            exact absurd hj (Nat.not_lt_zero j)
          · rw [List.erase_cons_head]
            rfl
      | false =>
          simp only [List.find?, hb] at h
          obtain ⟨i, hgi, hq, hjs, herase⟩ := ih game h
          have hne : a ≠ game := by
            intro heq
            rw [heq, hq, beq_self_eq_true] at hb
            cases hb
          refine ⟨i + 1, by simpa using hgi, hq, ?_, ?_⟩
          · intro j y hj hy
            cases j with
            | zero =>
                have hya : y = a := by
                  have : some a = some y := by simpa using hy
                  exact (Option.some.inj this).symm
                rw [hya]
                exact beq_eq_false_iff_ne.mp hb
            | succ j' => exact hjs j' y (by omega) (by simpa using hy)
          · rw [List.erase_cons_tail (by simp [hne, string_beq_false hne]), herase]
            rfl

/-- After erasing the unique normalized match, nothing matches any more. -/
theorem no_match_in_erase (games : List String) (game : String) (q : String)
    (hnodup : (games.map normalize_game_name).Nodup)
    (hgame : game ∈ games) (hq : normalize_game_name game = q) :
    ∀ y ∈ games.erase game, normalize_game_name y ≠ q := by
  intro y hy hyq
  have hnd : games.Nodup := hnodup.of_map
  obtain ⟨hne, hmem⟩ := (List.Nodup.mem_erase_iff hnd).mp hy
  exact hne (List.inj_on_of_nodup_map hnodup hmem hgame (hyq.trans hq.symm))

theorem remove_game_frame (st : BotState) (uid : Int) (g : String) (k : String)
    (hk : k ≠ toString uid) :
    List.lookup k (remove_game_from_state st uid g).snd.users = List.lookup k st.users := by
  cases hu : List.lookup (toString uid) st.users with
  | none => simp [remove_game_from_state, hu]
  | some user =>
      cases hg : user.games with
      | none => simp [remove_game_from_state, hu, hg]
      | some games =>
          cases he : games.isEmpty with
          | true => simp [remove_game_from_state, hu, hg, he]
          | false =>
              cases hf : games.find?
                  (fun x => normalize_game_name x == normalize_game_name g) with
              | none => simp [remove_game_from_state, hu, hg, he, hf]
              | some game =>
                  simp [remove_game_from_state, hu, hg, he, hf,
                    lookup_dictSet_ne _ _ _ _ hk]

/-- C7: `removeGame` removes exactly the first game entry whose normalized
form equals the normalized argument and returns true; with an unknown user or
no matching entry it returns false and leaves the store unchanged, so a second
removal of the same game returns false. -/
theorem remove_game_first_match :
    (∀ (state : BotState) (user_id : Int) (g : String),
      List.lookup (toString user_id) state.users = none →
      remove_game_from_state state user_id g = (false, state)) ∧
    (∀ (state : BotState) (user_id : Int) (g : String),
      (∀ x ∈ list_games_from_state state user_id,
        normalize_game_name x ≠ normalize_game_name g) →
      remove_game_from_state state user_id g = (false, state)) ∧
    (∀ (state : BotState) (user_id : Int) (g : String),
      (∃ x ∈ list_games_from_state state user_id,
        normalize_game_name x = normalize_game_name g) →
      (remove_game_from_state state user_id g).fst = true ∧
      ∃ i y, (list_games_from_state state user_id)[i]? = some y ∧
        normalize_game_name y = normalize_game_name g ∧
        (∀ j z, j < i → (list_games_from_state state user_id)[j]? = some z →
          normalize_game_name z ≠ normalize_game_name g) ∧
        list_games_from_state (remove_game_from_state state user_id g).snd user_id =
          (list_games_from_state state user_id).eraseIdx i) ∧
    (∀ (state : BotState) (user_id : Int) (g : String),
      ((list_games_from_state state user_id).map normalize_game_name).Nodup →
      (remove_game_from_state state user_id g).fst = true →
      (remove_game_from_state (remove_game_from_state state user_id g).snd user_id g).fst =
        false) := by
  have hfound_shape : ∀ (state : BotState) (user_id : Int) (g : String),
      (remove_game_from_state state user_id g).fst = true →
      ∃ user games game,
        List.lookup (toString user_id) state.users = some user ∧
        user.games = some games ∧
        games.find? (fun x => normalize_game_name x == normalize_game_name g) = some game ∧
        remove_game_from_state state user_id g =
          (true, ⟨dictSet state.users (toString user_id)
            { user with games := some (games.erase game) }⟩) := by
    intro state user_id g htrue
    cases hu : List.lookup (toString user_id) state.users with
    | none => rw [show remove_game_from_state state user_id g = (false, state) by
        simp [remove_game_from_state, hu]] at htrue; cases htrue
    | some user =>
        cases hg : user.games with
        | none => rw [show remove_game_from_state state user_id g = (false, state) by
            simp [remove_game_from_state, hu, hg]] at htrue; cases htrue
        | some games =>
            cases he : games.isEmpty with
            | true => rw [show remove_game_from_state state user_id g = (false, state) by
                simp [remove_game_from_state, hu, hg, he]] at htrue; cases htrue
            | false =>
                cases hf : games.find?
                    (fun x => normalize_game_name x == normalize_game_name g) with
                | none => rw [show remove_game_from_state state user_id g = (false, state) by
                    simp [remove_game_from_state, hu, hg, he, hf]] at htrue; cases htrue
                | some game =>
                    exact ⟨user, games, game, rfl, hg, hf,
                      remove_game_found state user_id g game user games hu hg hf⟩
  refine ⟨?_, ?_, ?_, ?_⟩
  · intro state user_id g hu
    simp [remove_game_from_state, hu]
  · intro state user_id g h
    exact remove_game_no_match state user_id g h
  · intro state user_id g hex
    obtain ⟨x, hx, hnx⟩ := hex
    cases hu : List.lookup (toString user_id) state.users with
    | none => simp [list_games_from_state, hu] at hx
    | some user =>
        cases hg : user.games with
        | none => simp [list_games_from_state, hu, hg] at hx
        | some games =>
            have hlist : list_games_from_state state user_id = games := by
              simp [list_games_from_state, hu, hg]
            rw [hlist] at hx
            have hfs : (games.find?
                (fun y => normalize_game_name y == normalize_game_name g)).isSome := by
              rw [List.find?_isSome]
              exact ⟨x, hx, by rw [hnx]; exact beq_self_eq_true _⟩
            obtain ⟨game, hf⟩ := Option.isSome_iff_exists.mp hfs
            have hrem := remove_game_found state user_id g game user games hu hg hf
            obtain ⟨i, hgi, hq, hjs, herase⟩ := games_find_erase (normalize_game_name g)
              games game hf
            constructor
            · rw [hrem]
            · refine ⟨i, game, ?_, hq, ?_, ?_⟩
              · rw [hlist]; exact hgi
              · intro j z hj hz
                rw [hlist] at hz
                exact hjs j z hj hz
              · rw [hrem, hlist, ← herase]
                simp [list_games_from_state, lookup_dictSet_self]
  · intro state user_id g hnodup htrue
    obtain ⟨user, games, game, hu, hg, hf, hrem⟩ := hfound_shape state user_id g htrue
    have hlist : list_games_from_state state user_id = games := by
      simp [list_games_from_state, hu, hg]
    rw [hlist] at hnodup
    have hmem : game ∈ games := List.mem_of_find?_eq_some hf
    obtain ⟨i0, hgi0, hq, hjs0, herase0⟩ :=
      games_find_erase (normalize_game_name g) games game hf
    have hsnd : list_games_from_state (remove_game_from_state state user_id g).snd user_id =
        games.erase game := by
      rw [hrem]
      simp [list_games_from_state, lookup_dictSet_self]
    have hnomatch : ∀ x ∈ list_games_from_state
        (remove_game_from_state state user_id g).snd user_id,
        normalize_game_name x ≠ normalize_game_name g := by
      rw [hsnd]
      exact no_match_in_erase games game (normalize_game_name g) hnodup hmem hq
    rw [remove_game_no_match _ _ _ hnomatch]

/-- A user whose single game is `"Stardew Valley"`. -/
def c7St : BotState :=
  ⟨[("6", { games := some ["Stardew Valley"], timezone := none, availability := none })]⟩

theorem remove_game_first_match_witness :
    (remove_game_from_state ⟨[]⟩ 6 "Chess" = (false, (⟨[]⟩ : BotState))) ∧
    ((remove_game_from_state c7St 6 "stardew valley").fst = true ∧
      ∃ i y, (list_games_from_state c7St 6)[i]? = some y ∧
        normalize_game_name y = normalize_game_name "stardew valley" ∧
        (∀ j z, j < i → (list_games_from_state c7St 6)[j]? = some z →
          normalize_game_name z ≠ normalize_game_name "stardew valley") ∧
        list_games_from_state (remove_game_from_state c7St 6 "stardew valley").snd 6 =
          (list_games_from_state c7St 6).eraseIdx i) ∧
    ((remove_game_from_state (remove_game_from_state c7St 6 "stardew valley").snd 6
        "stardew valley").fst = false) :=
  ⟨remove_game_first_match.1 ⟨[]⟩ 6 "Chess" (by decide),
   remove_game_first_match.2.2.1 c7St 6 "stardew valley" ⟨"Stardew Valley", by decide, by decide⟩,
   remove_game_first_match.2.2.2 c7St 6 "stardew valley" (by decide) (by decide)⟩

/-! ## Frame lemmas for the remaining mutators -/

theorem set_timezone_frame (st : BotState) (uid : Int) (tz : String) (k : String)
    (hk : k ≠ toString uid) :
    List.lookup k (set_timezone_in_state st uid tz).users = List.lookup k st.users := by
  cases hu : List.lookup (toString uid) st.users with
  | none => simp [set_timezone_in_state, hu, lookup_dictSet_ne _ _ _ _ hk]
  | some user => simp [set_timezone_in_state, hu, lookup_dictSet_ne _ _ _ _ hk]

theorem set_day_availability_frame (st : BotState) (uid : Int) (day : String)
    (start stop : Option String) (k : String) (hk : k ≠ toString uid) :
    List.lookup k (set_day_availability_in_state st uid day start stop).users =
      List.lookup k st.users := by
  cases hu : List.lookup (toString uid) st.users with
  | none =>
      simp only [set_day_availability_in_state, hu, Option.isSome_none, Bool.false_eq_true,
        if_false, lookup_dictSet_self]
      rw [lookup_dictSet_ne _ _ _ _ hk, lookup_dictSet_ne _ _ _ _ hk]
  | some user =>
      simp only [set_day_availability_in_state, hu, Option.isSome_some, if_true]
      rw [lookup_dictSet_ne _ _ _ _ hk]

/-- C10: every mutator changes at most the record keyed by the invoked user's
identifier inside the top-level users mapping (which itself always remains
present, being structural in the state): every other key still maps to the
same record afterwards. -/
theorem mutators_frame :
    (∀ (st : BotState) (uid : Int) (g : String) (st' : BotState) (k : String),
      add_game_to_state st uid g = some st' → k ≠ toString uid →
      List.lookup k st'.users = List.lookup k st.users) ∧
    (∀ (st : BotState) (uid : Int) (g : String) (k : String), k ≠ toString uid →
      List.lookup k (remove_game_from_state st uid g).snd.users = List.lookup k st.users) ∧
    (∀ (st : BotState) (uid : Int) (tz : String) (k : String), k ≠ toString uid →
      List.lookup k (set_timezone_in_state st uid tz).users = List.lookup k st.users) ∧
    (∀ (st : BotState) (uid : Int) (day : String) (start stop : Option String) (k : String),
      k ≠ toString uid →
      List.lookup k (set_day_availability_in_state st uid day start stop).users =
        List.lookup k st.users) :=
  ⟨fun st uid g st' k h hk => (add_game_to_state_games st uid g st' h).2 k hk,
   fun st uid g k hk => remove_game_frame st uid g k hk,
   fun st uid tz k hk => set_timezone_frame st uid tz k hk,
   fun st uid day start stop k hk => set_day_availability_frame st uid day start stop k hk⟩

/-- Two-user store for exercising the frame property. -/
def frameSt : BotState :=
  ⟨[("1", { games := some ["Chess"], timezone := none, availability := none }),
    ("2", { games := some ["chess"], timezone := none, availability := none })]⟩

/-- `frameSt` after adding `"Go"` for user 2. -/
def frameStAdd : BotState :=
  ⟨[("1", { games := some ["Chess"], timezone := none, availability := none }),
    ("2", { games := some ["chess", "Go"], timezone := none, availability := none })]⟩

theorem mutators_frame_witness :
    (List.lookup "1" frameStAdd.users = List.lookup "1" frameSt.users) ∧
    (List.lookup "1" (remove_game_from_state frameSt 2 "chess").snd.users =
      List.lookup "1" frameSt.users) ∧
    (List.lookup "1" (set_timezone_in_state frameSt 2 "UTC").users =
      List.lookup "1" frameSt.users) ∧
    (List.lookup "1" (set_day_availability_in_state frameSt 2 "mon"
        (some "09:00") (some "17:00")).users = List.lookup "1" frameSt.users) :=
  ⟨mutators_frame.1 frameSt 2 "Go" frameStAdd "1" (by decide) (by decide),
   mutators_frame.2.1 frameSt 2 "chess" "1" (by decide),
   mutators_frame.2.2.1 frameSt 2 "UTC" "1" (by decide),
   mutators_frame.2.2.2 frameSt 2 "mon" (some "09:00") (some "17:00") "1" (by decide)⟩

end HourglassBot
